import Mathlib

/-!
Verification development for the handler-matching and dispatch core of a
Telegram-style bot framework (python-telegram-bot handler variants).

The Python sources embedded here:
  * `telegram/ext/stringcommandhandler.py` — `StringCommandHandler`
  * `telegram/ext/inlinequeryhandler.py`   — `InlineQueryHandler`
  * `telegram/ext/typehandler.py`          — `TypeHandler`

Python's `re.match` (anchored-at-start, greedy, backtracking, named groups)
is embedded as an executable fuel-indexed matcher over a small regex AST,
together with a parser for the pattern fragment the handlers use
(literal characters, `.`, postfix `*`, plain groups `( )` and named groups
with the `?P<name>` form).  The dispatcher itself is not among the source
files, so it is modelled from the specification text.
-/

namespace PTB

/-- Key of a capture group: positional index or `?P<name>` name. -/
inductive GroupKey where
  | idx (n : Nat)
  | name (s : String)
  deriving DecidableEq, Repr

/-- Regex AST covering the fragment used by the handlers under test:
empty pattern, literal character, `.`, concatenation, greedy `*`,
and capture groups. -/
inductive Re where
  | eps
  | char (c : Char)
  | dot
  | seq (r1 r2 : Re)
  | star (r : Re)
  | group (k : GroupKey) (r : Re)
  deriving DecidableEq, Repr

/-- Captured groups of a match, in capture order. -/
def Caps := List (GroupKey × String)

/-- Record a capture, overwriting an earlier capture of the same group. -/
def setCap (caps : List (GroupKey × String)) (k : GroupKey) (v : String) :
    List (GroupKey × String) :=
  match caps with
  | [] => [(k, v)]
  | (k0, v0) :: rest =>
      if k0 = k then (k0, v) :: rest else (k0, v0) :: setCap rest k v

/-- Substring of a character list from position `i` (inclusive) to `j`
(exclusive), as a string. -/
def sliceStr (cs : List Char) (i j : Nat) : String :=
  String.mk ((cs.drop i).take (j - i))

/-- All ways the regex can match a prefix of `cs` starting at position `i`,
as pairs (end position, captures), in backtracking priority order: the head
is the alternative Python's backtracking engine commits to.  The greedy `*`
tries another iteration before stopping, and an iteration must advance the
position (Python's engine likewise refuses empty-width `*` iterations).
`fuel` decreases on every recursive call, making the definition structural
and hence kernel-evaluable. -/
def reMatches : Nat → Re → List Char → Nat →
    List (GroupKey × String) → List (Nat × List (GroupKey × String))
  | 0, _, _, _, _ => []
  | fuel + 1, r, cs, i, caps =>
    match r with
    | .eps => [(i, caps)]
    | .char c =>
        match cs.drop i with
        | x :: _ => if x = c then [(i + 1, caps)] else []
        | [] => []
    | .dot => if i < cs.length then [(i + 1, caps)] else []
    | .seq r1 r2 =>
        (reMatches fuel r1 cs i caps).flatMap
          (fun p => reMatches fuel r2 cs p.1 p.2)
    | .star r1 =>
        ((reMatches fuel r1 cs i caps).filter (fun p => i < p.1)).flatMap
          (fun p => reMatches fuel (.star r1) cs p.1 p.2) ++ [(i, caps)]
    | .group k r1 =>
        (reMatches fuel r1 cs i caps).map
          (fun p => (p.1, setCap p.2 k (sliceStr cs i p.1)))

/-- Nesting depth of a regex, used to size the matcher fuel. -/
def Re.depth : Re → Nat
  | .eps => 1
  | .char _ => 1
  | .dot => 1
  | .seq r1 r2 => 1 + max r1.depth r2.depth
  | .star r => 1 + r.depth
  | .group _ r => 1 + r.depth

/-- Fuel sufficient for `reMatches` on `r` over `cs`: every `*` iteration
advances the position, so the recursion depth is bounded by
(length + 1) * (depth + 2). -/
def reFuel (r : Re) (cs : List Char) : Nat :=
  (cs.length + 1) * (r.depth + 2) + 1

/-- A Python `re.Match` object: the end position of the (start-anchored)
match within the subject string, and the captured groups. -/
structure MatchObj where
  endIdx : Nat
  caps : List (GroupKey × String)
  deriving DecidableEq, Repr

/-- Named-group lookup, `m.group('name')` in Python. -/
def MatchObj.groupOf (m : MatchObj) (nm : String) : Option String :=
  m.caps.lookup (GroupKey.name nm)

/-- Embedding of Python's `re.match(pattern, s)`: attempt a match anchored
at the start of `s`; a match need not span the whole string.  Returns the
backtracking engine's first alternative, as Python does. -/
def reMatch (r : Re) (s : String) : Option MatchObj :=
  match (reMatches (reFuel r s.data) r s.data 0 []).head? with
  | some p => some { endIdx := p.1, caps := p.2 }
  | none => none

/-- Parser for the supported pattern fragment, embedding `re.compile`
failure behaviour: returns the parsed alternatives-free regex and the
unconsumed input (which stops at a `)` for the enclosing group), or `none`
on a malformed pattern.  `gi` numbers the positional groups.  Characters
with a regex meaning outside the supported fragment are rejected rather
than silently treated as literals. -/
def parseSeq : Nat → List Char → Nat → Option (Re × List Char × Nat)
  | 0, _, _ => none
  | _ + 1, [], gi => some (.eps, [], gi)
  | _ + 1, ')' :: rest, gi => some (.eps, ')' :: rest, gi)
  | fuel + 1, c :: rest, gi =>
    let atom? : Option (Re × List Char × Nat) :=
      if c = '(' then
        match rest with
        | '?' :: 'P' :: '<' :: more =>
            let nm := more.takeWhile (fun x => x ≠ '>')
            match nm, more.dropWhile (fun x => x ≠ '>') with
            | _ :: _, '>' :: body =>
                match parseSeq fuel body gi with
                | some (r, ')' :: rest2, gi') =>
                    some (.group (.name (String.mk nm)) r, rest2, gi')
                | _ => none
            | _, _ => none
        | _ =>
            match parseSeq fuel rest (gi + 1) with
            | some (r, ')' :: rest2, gi') =>
                some (.group (.idx gi) r, rest2, gi')
            | _ => none
      else if c = '.' then some (.dot, rest, gi)
      else if c = '*' ∨ c = ')' ∨ c = '+' ∨ c = '?' ∨ c = '[' ∨ c = ']' ∨
              c = '|' ∨ c = '\\' ∨ c = '^' ∨ c = '$' then none
      else some (.char c, rest, gi)
    match atom? with
    | none => none
    | some (a, rest1, gi1) =>
        match rest1 with
        | '*' :: rest2 =>
            match parseSeq fuel rest2 gi1 with
            | some (tl, rest3, gi2) => some (.seq (.star a) tl, rest3, gi2)
            | none => none
        | _ =>
            match parseSeq fuel rest1 gi1 with
            | some (tl, rest3, gi2) => some (.seq a tl, rest3, gi2)
            | none => none

/-- Embedding of `re.compile`: `none` is the construction-time
`re.error` on a malformed pattern string. -/
def compileRe (s : String) : Option Re :=
  match parseSeq (s.length + 1) s.data 1 with
  | some (r, [], _) => some r
  | _ => none

/-- `telegram.InlineQuery`: the two fields the handlers inspect.  `query`
is `Option` so that an absent query text (`None`) and the empty string are
both representable; Python's truthiness test treats them alike. -/
structure InlineQuery where
  query : Option String
  chat_type : Option String
  deriving DecidableEq, Repr

/-- `telegram.Update`: the engine treats it as opaque beyond the
`inline_query` sub-object the pattern-match handler probes for. -/
structure TgUpdate where
  update_id : Nat
  inline_query : Option InlineQuery
  deriving DecidableEq, Repr

/-- A value arriving at a handler's `check_update`: a `telegram.Update`,
a plain string (string handlers), or some other Python object. -/
inductive Obj where
  | upd (u : TgUpdate)
  | str (s : String)
  | other (n : Nat)
  deriving DecidableEq, Repr

/-- Python truthiness of an optional string (`None` and `''` are falsy). -/
def strTruthy : Option String → Bool
  | some s => s ≠ ""
  | none => false

/-- Python membership `ct in cts` where `ct` is `Optional[str]` and `cts`
a list of strings: `None` is never an element. -/
def chatTypeIn (ct : Option String) (cts : List String) : Bool :=
  match ct with
  | some s => cts.contains s
  | none => false

/-- `check_update`'s Python return type `Optional[Union[bool, Match]]`. -/
inductive CheckResult where
  | nomatch
  | bool (b : Bool)
  | matched (m : MatchObj)
  deriving DecidableEq, Repr

/-- `telegram.ext.CallbackContext`: the enrichment slots the handlers
write (`matches`, `args`) plus a representative untouched field. -/
structure CallbackContext where
  «matches» : Option (List CheckResult)
  args : Option (List String)
  bot_data : Nat
  deriving DecidableEq, Repr

/-- `telegram.ext.InlineQueryHandler` state after construction: the
compiled pattern (or `none`) and the optional chat-type allow-list. -/
structure InlineQueryHandler where
  pattern : Option Re
  chat_types : Option (List String)
  deriving DecidableEq, Repr

/-- The `pattern` argument of `InlineQueryHandler.__init__`:
`Union[str, Pattern]`, optional. -/
inductive PatternArg where
  | none
  | str (s : String)
  | compiled (r : Re)
  deriving DecidableEq, Repr

/-- `InlineQueryHandler.__init__`: a string pattern is compiled at
construction time; `Except.error` is the `re.error` a malformed pattern
raises there. -/
def InlineQueryHandler.make (pattern : PatternArg)
    (chat_types : Option (List String)) :
    Except String InlineQueryHandler :=
  match pattern with
  | .none => .ok { pattern := none, chat_types }
  | .compiled r => .ok { pattern := some r, chat_types }
  | .str s =>
      match compileRe s with
      | some r => .ok { pattern := some r, chat_types }
      | none => .error "re.error: bad pattern"

/-- `InlineQueryHandler.check_update`, line for line: `False` on an
allow-list rejection, `True` on the pattern-free success, the match
object on a pattern success, `None` otherwise. -/
def InlineQueryHandler.check_update (self : InlineQueryHandler)
    (update : Obj) : CheckResult :=
  match update with
  | .upd u =>
      match u.inline_query with
      | some iq =>
          if self.chat_types.isSome ∧
              ¬ chatTypeIn iq.chat_type (self.chat_types.getD []) then
            .bool false
          else
            match self.pattern with
            | some p =>
                if strTruthy iq.query then
                  match reMatch p (iq.query.getD "") with
                  | some m => .matched m
                  | none => .nomatch
                else .nomatch
            | none => .bool true
      | none => .nomatch
  | _ => .nomatch

/-- `InlineQueryHandler.collect_additional_context`: with a configured
pattern, store `[check_result]` in `context.matches`; otherwise leave the
context alone. -/
def InlineQueryHandler.collect_additional_context
    (self : InlineQueryHandler) (context : CallbackContext)
    (check_result : CheckResult) : CallbackContext :=
  if self.pattern.isSome then
    { context with «matches» := some [check_result] }
  else context

/-- `telegram.ext.StringCommandHandler` state: the command token. -/
structure StringCommandHandler where
  command : String
  deriving DecidableEq, Repr

/-- Python's `str.split(' ')`: split on single space characters, keeping
empty tokens between consecutive separators; the empty string yields
`[""]`.  Structural over the character list so the kernel can evaluate
it. -/
def splitOnSpace : List Char → List String
  | [] => [""]
  | c :: rest =>
      match splitOnSpace rest with
      | [] => if c = ' ' then ["", ""] else [String.mk [c]]
      | g :: gs =>
          if c = ' ' then "" :: g :: gs
          else (String.mk [c] ++ g) :: gs

/-- `StringCommandHandler.check_update`: on a string update starting with
`/`, split the rest on single spaces; match when the first token equals
the command, yielding the remaining tokens. -/
def StringCommandHandler.check_update (self : StringCommandHandler)
    (update : Obj) : Option (List String) :=
  match update with
  | .str s =>
      match s.data with
      | '/' :: rest =>
          match splitOnSpace rest with
          | [] => none
          | a :: tail => if a = self.command then some tail else none
      | _ => none
  | _ => none

/-- `StringCommandHandler.collect_additional_context`:
`context.args = check_result`. -/
def StringCommandHandler.collect_additional_context
    (_self : StringCommandHandler) (context : CallbackContext)
    (check_result : Option (List String)) : CallbackContext :=
  { context with args := check_result }

/-- `telegram.ext.TypeHandler` state: the target class and the strictness
flag.  `Class` is the type of runtime class tags of the host language. -/
structure TypeHandler (Class : Type) where
  type : Class
  strict : Bool

/-- A runtime value of the host language: its class tag plus an opaque
payload.  `TypeHandler.check_update` inspects only the class. -/
structure PyVal (Class : Type) where
  cls : Class
  payload : Nat

/-- Python's `isinstance(u, t)`: the target class occurs in the method
resolution order (the class itself followed by its ancestors) of the
value's runtime class.  `mro` is the host program's class hierarchy. -/
def isinstance {Class : Type} [DecidableEq Class]
    (mro : Class → List Class) (u : PyVal Class) (t : Class) : Bool :=
  (mro u.cls).contains t

/-- `TypeHandler.check_update`: `isinstance` unless strict, exact runtime
class equality (`type(update) is self.type`) when strict.  A total
function: no input can raise. -/
def TypeHandler.check_update {Class : Type} [DecidableEq Class]
    (mro : Class → List Class) (self : TypeHandler Class)
    (update : PyVal Class) : Bool :=
  if ¬ self.strict then isinstance mro update self.type
  else update.cls = self.type

/-- Modelled from the spec: the `Dispatcher` class (source not among the
example files) registers each handler under an integer group; `dispatch`
walks groups in ascending group order, handlers within a group in
registration order, and runs the callback of the first handler whose
`check_update` is truthy.  A handler here is its registration label, its
match predicate (truthiness of `check_update`), and its callback. -/
structure DHandler (υ σ : Type) where
  label : Nat
  accepts : υ → Bool
  callback : υ → σ

/-- Modelled from the spec: the handler-group registry, kept as a list of
(group identifier, handlers in registration order); the dispatcher keeps
the groups sorted in ascending identifier order. -/
abbrev Registry (υ σ : Type) := List (Int × List (DHandler υ σ))

/-- Modelled from the spec: find the handler `dispatch` selects for an
update — the first match in group order then registration order; `none`
when no handler matches anywhere. -/
def dispatchFind {υ σ : Type} (reg : Registry υ σ) (u : υ) :
    Option (DHandler υ σ) :=
  match reg with
  | [] => none
  | (_, hs) :: rest =>
      match hs.find? (fun h => h.accepts u) with
      | some h => some h
      | none => dispatchFind rest u

/-- Modelled from the spec: the callback invocations one `dispatch(U)`
performs, as (handler label, callback result) pairs — the selected
handler's callback and nothing else; an unhandled update invokes none. -/
def dispatchInvocations {υ σ : Type} (reg : Registry υ σ) (u : υ) :
    List (Nat × σ) :=
  match dispatchFind reg u with
  | some h => [(h.label, h.callback u)]
  | none => []

/-- The allow-list test of `InlineQueryHandler.check_update` passes:
no allow-list is configured, or the update's chat type is listed. -/
def allowPass (h : InlineQueryHandler) (iq : InlineQuery) : Prop :=
  h.chat_types = none ∨
    ∃ cts, h.chat_types = some cts ∧ chatTypeIn iq.chat_type cts = true

/-- A three-class hierarchy: `fooSub` is a proper subclass of `foo`,
`bar` is unrelated. -/
inductive PyClassDemo where
  | foo
  | fooSub
  | bar
  deriving DecidableEq, Repr

/-- Method resolution order of the demo hierarchy. -/
def demoMro : PyClassDemo → List PyClassDemo
  | .foo => [.foo]
  | .fooSub => [.fooSub, .foo]
  | .bar => [.bar]


/-! ### Helper lemmas -/

theorem splitOnSpace_ne_nil (cs : List Char) : splitOnSpace cs ≠ [] := by
  induction cs with
  | nil => simp [splitOnSpace]
  | cons c rest ih =>
      simp only [splitOnSpace]
      split <;> split <;> simp

theorem check_update_allow_fail (h : InlineQueryHandler)
    (cts : List String) (tu : TgUpdate) (iq : InlineQuery)
    (hc : h.chat_types = some cts) (hi : tu.inline_query = some iq)
    (hm : chatTypeIn iq.chat_type cts = false) :
    h.check_update (.upd tu) = .bool false := by
  simp [InlineQueryHandler.check_update, hi, hc, hm]

theorem check_update_allow_pass (h : InlineQueryHandler)
    (tu : TgUpdate) (iq : InlineQuery)
    (hi : tu.inline_query = some iq) (hp : allowPass h iq) :
    h.check_update (.upd tu) =
      (match h.pattern with
       | some p =>
           if strTruthy iq.query then
             match reMatch p (iq.query.getD "") with
             | some m => .matched m
             | none => .nomatch
           else .nomatch
       | none => .bool true) := by
  rcases hp with hc | ⟨cts, hc, hm⟩
  · simp [InlineQueryHandler.check_update, hi, hc]
  · simp [InlineQueryHandler.check_update, hi, hc, hm]

theorem allowPass_nolist (pat : Option Re) (iq : InlineQuery) :
    allowPass ⟨pat, none⟩ iq := Or.inl rfl

theorem allowPass_some_iff (pat : Option Re) (cts : List String)
    (iq : InlineQuery) :
    allowPass ⟨pat, some cts⟩ iq ↔ chatTypeIn iq.chat_type cts = true := by
  constructor
  · rintro (hc | ⟨cts', hc, hm⟩)
    · exact Option.noConfusion hc
    · cases hc; exact hm
  · intro hm; exact Or.inr ⟨cts, rfl, hm⟩

theorem cu_pat_some_falsy (h : InlineQueryHandler) (p : Re)
    (tu : TgUpdate) (iq : InlineQuery)
    (hp : h.pattern = some p) (hi : tu.inline_query = some iq)
    (ha : allowPass h iq) (hst : strTruthy iq.query = false) :
    h.check_update (.upd tu) = .nomatch := by
  rw [check_update_allow_pass h tu iq hi ha, hp]
  simp [hst]

theorem cu_pat_some_truthy (h : InlineQueryHandler) (p : Re)
    (tu : TgUpdate) (iq : InlineQuery) (q : String)
    (hp : h.pattern = some p) (hi : tu.inline_query = some iq)
    (ha : allowPass h iq) (hq : iq.query = some q) (hne : q ≠ "") :
    h.check_update (.upd tu) =
      (match reMatch p q with
       | some m => CheckResult.matched m
       | none => CheckResult.nomatch) := by
  rw [check_update_allow_pass h tu iq hi ha, hp]
  simp [hq, strTruthy, hne]

theorem cu_pat_none (h : InlineQueryHandler)
    (tu : TgUpdate) (iq : InlineQuery)
    (hp : h.pattern = none) (hi : tu.inline_query = some iq)
    (ha : allowPass h iq) :
    h.check_update (.upd tu) = .bool true := by
  rw [check_update_allow_pass h tu iq hi ha, hp]

/-! ### Claims -/

/-- Claim C2: `StringCommandHandler.check_update` matches exactly when the
update is a string starting with `/` whose first single-space-delimited
token after the slash equals the command; on a match it yields the
remaining tokens, splitting on single spaces without collapsing runs —
with command `start`: `/start` gives `[]`, `/start now` gives `["now"]`,
`/start  now` gives `["", "now"]`, while `/star now` and `nope` are
no-matches. -/
theorem C2_string_command_match (c : String) (u : Obj) (r : List String) :
    (StringCommandHandler.check_update ⟨c⟩ u = some r ↔
      ∃ s rest, u = Obj.str s ∧ s.data = '/' :: rest ∧
        (splitOnSpace rest).head? = some c ∧
        r = (splitOnSpace rest).tail) ∧
    StringCommandHandler.check_update ⟨"start"⟩ (.str "/start") = some [] ∧
    StringCommandHandler.check_update ⟨"start"⟩ (.str "/start now") =
      some ["now"] ∧
    StringCommandHandler.check_update ⟨"start"⟩ (.str "/start  now") =
      some ["", "now"] ∧
    StringCommandHandler.check_update ⟨"start"⟩ (.str "/star now") = none ∧
    StringCommandHandler.check_update ⟨"start"⟩ (.str "nope") = none := by
  refine ⟨?_, by decide, by decide, by decide, by decide, by decide⟩
  constructor
  · intro hm
    cases u with
    | upd u => simp [StringCommandHandler.check_update] at hm
    | other n => simp [StringCommandHandler.check_update] at hm
    | str s =>
        simp only [StringCommandHandler.check_update] at hm
        split at hm
        · rename_i rest hd
          refine ⟨s, rest, rfl, hd, ?_⟩
          split at hm
          · rename_i hspl; exact absurd hspl (splitOnSpace_ne_nil rest)
          · rename_i a tail hspl
            split at hm
            · rename_i hac
              cases hm
              exact ⟨by simp [hspl, hac], by simp [hspl]⟩
            · simp at hm
        · simp at hm
  · rintro ⟨s, rest, hu, hd, hh, hr⟩
    subst hu
    obtain ⟨data⟩ := s
    simp only [String.data] at hd
    subst hd
    simp only [StringCommandHandler.check_update]
    cases hspl : splitOnSpace rest with
    | nil => exact absurd hspl (splitOnSpace_ne_nil rest)
    | cons a tail =>
        rw [hspl] at hh hr
        simp only [List.head?] at hh
        cases hh
        simp [hspl, hr]

/-- Claim C3: an `InlineQueryHandler` with a chat-type allow-list rejects
every inline-query update whose chat type is not in the list, returning
`False` regardless of the configured pattern and of the query text. -/
theorem C3_allow_list_precedence (h : InlineQueryHandler)
    (cts : List String) (tu : TgUpdate) (iq : InlineQuery)
    (hc : h.chat_types = some cts) (hi : tu.inline_query = some iq)
    (hm : chatTypeIn iq.chat_type cts = false) :
    h.check_update (.upd tu) = .bool false :=
  check_update_allow_fail h cts tu iq hc hi hm

/-- Witness for C3: allow-list `["private"]`, chat type `"group"`, a
configured pattern and non-empty query — still `False`. -/
theorem C3_allow_list_precedence_witness :
    InlineQueryHandler.check_update
      ⟨some (Re.char 't'), some ["private"]⟩
      (.upd ⟨1, some ⟨some "tea", some "group"⟩⟩) = .bool false :=
  C3_allow_list_precedence ⟨some (Re.char 't'), some ["private"]⟩
    ["private"] ⟨1, some ⟨some "tea", some "group"⟩⟩
    ⟨some "tea", some "group"⟩ rfl rfl (by decide)

/-- Claim C7: an `InlineQueryHandler` without a pattern matches (returns
`True`) every inline-query update that passes the allow-list, whatever the
query text, including empty or absent. -/
theorem C7_no_pattern_success (h : InlineQueryHandler)
    (tu : TgUpdate) (iq : InlineQuery)
    (hp : h.pattern = none) (hi : tu.inline_query = some iq)
    (ha : allowPass h iq) :
    h.check_update (.upd tu) = .bool true := by
  rw [check_update_allow_pass h tu iq hi ha, hp]

/-- Witness for C7: no pattern, no allow-list, absent query text —
`check_update` returns `True`. -/
theorem C7_no_pattern_success_witness :
    InlineQueryHandler.check_update ⟨none, none⟩
      (.upd ⟨1, some ⟨none, none⟩⟩) = .bool true :=
  C7_no_pattern_success ⟨none, none⟩ ⟨1, some ⟨none, none⟩⟩
    ⟨none, none⟩ rfl rfl (Or.inl rfl)

/-- Claim C4: with a configured pattern and a passing allow-list,
`check_update` never matches an empty or absent query text, and on a
non-empty query it matches exactly when `re.match` (anchored at the start
of the query, full match not required) succeeds, in which case the match
object is the result. -/
theorem C4_pattern_match (h : InlineQueryHandler) (p : Re)
    (tu : TgUpdate) (iq : InlineQuery)
    (hp : h.pattern = some p) (hi : tu.inline_query = some iq)
    (ha : allowPass h iq) :
    (strTruthy iq.query = false → h.check_update (.upd tu) = .nomatch) ∧
    (∀ q, iq.query = some q → q ≠ "" →
      h.check_update (.upd tu) =
        (match reMatch p q with
         | some m => CheckResult.matched m
         | none => CheckResult.nomatch)) := by
  rw [check_update_allow_pass h tu iq hi ha, hp]
  constructor
  · intro hq; simp [hq]
  · intro q hq hne
    simp [hq, strTruthy, hne]

/-- Witness for C4: pattern `t`, query `"tx"` — an anchored, non-full
match succeeds and the match object is returned; query `""` with the same
handler yields no match. -/
theorem C4_pattern_match_witness :
    InlineQueryHandler.check_update ⟨some (Re.char 't'), none⟩
        (.upd ⟨1, some ⟨some "tx", none⟩⟩) =
      .matched ⟨1, []⟩ ∧
    InlineQueryHandler.check_update ⟨some (Re.char 't'), none⟩
        (.upd ⟨2, some ⟨some "", none⟩⟩) = .nomatch := by
  constructor
  · have h := (C4_pattern_match ⟨some (Re.char 't'), none⟩ (Re.char 't')
      ⟨1, some ⟨some "tx", none⟩⟩ ⟨some "tx", none⟩ rfl rfl
      (Or.inl rfl)).2 "tx" rfl (by decide)
    exact h.trans (by decide)
  · exact (C4_pattern_match ⟨some (Re.char 't'), none⟩ (Re.char 't')
      ⟨2, some ⟨some "", none⟩⟩ ⟨some "", none⟩ rfl rfl
      (Or.inl rfl)).1 (by decide)

/-- Claim C9: the pattern `(?P<begin>.*)est(?P<end>.*)` compiles, and on
the query text `"test message"` the handler matches with named groups
`begin = "t"` and `end = " message"`. -/
theorem C9_named_groups :
    ((compileRe "(?P<begin>.*)est(?P<end>.*)").map (fun r =>
        InlineQueryHandler.check_update ⟨some r, none⟩
          (.upd ⟨1, some ⟨some "test message", none⟩⟩))) =
      some (.matched ⟨12, [(.name "begin", "t"), (.name "end", " message")]⟩) ∧
    MatchObj.groupOf
        ⟨12, [(.name "begin", "t"), (.name "end", " message")]⟩ "begin" =
      some "t" ∧
    MatchObj.groupOf
        ⟨12, [(.name "begin", "t"), (.name "end", " message")]⟩ "end" =
      some " message" := by
  refine ⟨by decide, by decide, by decide⟩

/-- Claim C10: the two no-match representations of
`InlineQueryHandler.check_update` — `False` exactly on an allow-list
rejection of an inline-query update; `True` exactly on the pattern-free
success; the match object exactly on a pattern success; `None` in every
remaining case (non-`Update` input, `Update` without inline query, or a
configured pattern with a falsy query or a failed anchored match). -/
theorem C10_return_value_partition (h : InlineQueryHandler) (u : Obj) :
    (h.check_update u = .bool false ↔
      ∃ tu iq cts, u = .upd tu ∧ tu.inline_query = some iq ∧
        h.chat_types = some cts ∧ chatTypeIn iq.chat_type cts = false) ∧
    (h.check_update u = .bool true ↔
      ∃ tu iq, u = .upd tu ∧ tu.inline_query = some iq ∧
        allowPass h iq ∧ h.pattern = none) ∧
    (∀ m, h.check_update u = .matched m ↔
      ∃ tu iq p q, u = .upd tu ∧ tu.inline_query = some iq ∧
        allowPass h iq ∧ h.pattern = some p ∧ iq.query = some q ∧
        q ≠ "" ∧ reMatch p q = some m) := by
  obtain ⟨pat, chats⟩ := h
  cases u with
  | str s => simp [InlineQueryHandler.check_update]
  | other n => simp [InlineQueryHandler.check_update]
  | upd tu =>
      cases hi : tu.inline_query with
      | none => simp [InlineQueryHandler.check_update, hi]
      | some iq =>
          cases chats with
          | some cts =>
              cases hm : chatTypeIn iq.chat_type cts with
              | false =>
                  rw [check_update_allow_fail ⟨pat, some cts⟩ cts tu iq rfl
                    hi hm]
                  refine ⟨?_, ?_, ?_⟩
                  · simp only [true_iff]
                    exact ⟨tu, iq, cts, rfl, hi, rfl, hm⟩
                  · simp [hi, allowPass_some_iff, hm]
                  · intro m
                    simp [hi, allowPass_some_iff, hm]
              | true =>
                  have ha := (allowPass_some_iff pat cts iq).mpr hm
                  cases pat with
                  | none =>
                      rw [cu_pat_none ⟨none, some cts⟩ tu iq rfl hi ha]
                      refine ⟨by simp [hi, hm], ?_, ?_⟩
                      · simp only [true_iff]
                        exact ⟨tu, iq, rfl, hi,
                          (allowPass_some_iff none cts iq).mpr hm, trivial⟩
                      · intro m
                        simp [hi, allowPass_some_iff, hm]
                  | some p =>
                      have ha' := (allowPass_some_iff (some p) cts iq).mpr hm
                      cases hq : iq.query with
                      | none =>
                          rw [cu_pat_some_falsy ⟨some p, some cts⟩ p tu iq
                            rfl hi ha' (by rw [hq]; rfl)]
                          refine ⟨by simp [hi, hm],
                            by simp [hi, allowPass_some_iff, hm], ?_⟩
                          intro m
                          simp [hi, allowPass_some_iff, hm, hq]
                      | some q =>
                          by_cases hne : q = ""
                          · subst hne
                            rw [cu_pat_some_falsy ⟨some p, some cts⟩ p tu iq
                              rfl hi ha' (by rw [hq]; rfl)]
                            refine ⟨by simp [hi, hm],
                              by simp [hi, allowPass_some_iff, hm], ?_⟩
                            intro m
                            simp [hi, allowPass_some_iff, hm, hq]
                          · have hx := cu_pat_some_truthy ⟨some p, some cts⟩
                              p tu iq q rfl hi ha' hq hne
                            cases hrm : reMatch p q with
                            | none =>
                                rw [hx.trans (by rw [hrm])]
                                refine ⟨by simp [hi, hm],
                                  by simp [hi, allowPass_some_iff, hm], ?_⟩
                                intro m
                                simp [hi, allowPass_some_iff, hm, hq, hne,
                                  hrm]
                            | some m0 =>
                                rw [hx.trans (by rw [hrm])]
                                refine ⟨by simp [hi, hm],
                                  by simp [hi, allowPass_some_iff, hm], ?_⟩
                                intro m
                                constructor
                                · intro hmm
                                  cases hmm
                                  exact ⟨tu, iq, p, q, rfl, hi, ha', rfl,
                                    hq, hne, hrm⟩
                                · rintro ⟨tu', iq', p', q', htu, hi', -,
                                    hpn, hq', hne', hrm'⟩
                                  cases htu
                                  rw [hi] at hi'; cases hi'
                                  cases hpn
                                  rw [hq] at hq'; cases hq'
                                  rw [hrm] at hrm'; cases hrm'
                                  rfl
          | none =>
              have ha := allowPass_nolist pat iq
              cases pat with
              | none =>
                  rw [cu_pat_none ⟨none, none⟩ tu iq rfl hi ha]
                  refine ⟨by simp [hi], ?_, ?_⟩
                  · simp only [true_iff]
                    exact ⟨tu, iq, rfl, hi, allowPass_nolist none iq, trivial⟩
                  · intro m
                    simp [hi]
              | some p =>
                  have ha' := allowPass_nolist (some p) iq
                  cases hq : iq.query with
                  | none =>
                      rw [cu_pat_some_falsy ⟨some p, none⟩ p tu iq rfl hi
                        ha' (by rw [hq]; rfl)]
                      refine ⟨by simp [hi], by simp [hi], ?_⟩
                      intro m
                      simp [hi, hq]
                  | some q =>
                      by_cases hne : q = ""
                      · subst hne
                        rw [cu_pat_some_falsy ⟨some p, none⟩ p tu iq rfl hi
                          ha' (by rw [hq]; rfl)]
                        refine ⟨by simp [hi], by simp [hi], ?_⟩
                        intro m
                        simp [hi, hq]
                      · have hx := cu_pat_some_truthy ⟨some p, none⟩ p tu iq
                          q rfl hi ha' hq hne
                        cases hrm : reMatch p q with
                        | none =>
                            rw [hx.trans (by rw [hrm])]
                            refine ⟨by simp [hi], by simp [hi], ?_⟩
                            intro m
                            simp [hi, hq, hne, hrm]
                        | some m0 =>
                            rw [hx.trans (by rw [hrm])]
                            refine ⟨by simp [hi], by simp [hi], ?_⟩
                            intro m
                            constructor
                            · intro hmm
                              cases hmm
                              exact ⟨tu, iq, p, q, rfl, hi, ha', rfl, hq,
                                hne, hrm⟩
                            · rintro ⟨tu', iq', p', q', htu, hi', -, hpn,
                                hq', hne', hrm'⟩
                              cases htu
                              rw [hi] at hi'; cases hi'
                              cases hpn
                              rw [hq] at hq'; cases hq'
                              rw [hrm] at hrm'; cases hrm'
                              rfl


/-- Claim C6: constructing an `InlineQueryHandler` from a pattern string
fails with a configuration error exactly when the pattern does not
compile; a successful construction stores the compiled pattern, and
`check_update` is a total function of the stored pattern, so no
compilation error can arise at match time. -/
theorem C6_construction_error (s : String) (cts : Option (List String)) :
    (InlineQueryHandler.make (.str s) cts).isOk = (compileRe s).isSome ∧
    (∀ h, InlineQueryHandler.make (.str s) cts = .ok h →
      h.pattern = compileRe s) := by
  constructor
  · unfold InlineQueryHandler.make
    cases hc : compileRe s <;> simp [Except.isOk, Except.toBool, hc]
  · intro h hk
    simp only [InlineQueryHandler.make] at hk
    split at hk
    · rename_i r hc
      cases hk
      simp [hc]
    · cases hk

/-- Witness for C6: the malformed pattern `"("` is rejected at
construction time; the well-formed pattern `"t"` is accepted and the
handler stores its compilation. -/
theorem C6_construction_error_witness :
    (InlineQueryHandler.make (.str "(") none).isOk = false ∧
    (InlineQueryHandler.make (.str "t") none).isOk = true ∧
    InlineQueryHandler.pattern
        ⟨some (Re.seq (Re.char 't') Re.eps), none⟩ = compileRe "t" := by
  refine ⟨(C6_construction_error "(" none).1.trans (by decide),
    (C6_construction_error "t" none).1.trans (by decide),
    (C6_construction_error "t" none).2
      ⟨some (Re.seq (Re.char 't') Re.eps), none⟩ rfl⟩

/-- Claim C8: `collect_additional_context` with a configured pattern sets
the context's `matches` field to the one-element list holding the check
result (the match object), overwriting any prior value and leaving every
other field unchanged; with no pattern it leaves the whole context
unchanged. -/
theorem C8_collect_context (h : InlineQueryHandler)
    (context : CallbackContext) (check_result : CheckResult) :
    (h.pattern.isSome = true →
      (h.collect_additional_context context check_result).«matches» =
          some [check_result] ∧
      (h.collect_additional_context context check_result).args =
          context.args ∧
      (h.collect_additional_context context check_result).bot_data =
          context.bot_data) ∧
    (h.pattern = none →
      h.collect_additional_context context check_result = context) := by
  constructor
  · intro hp
    simp [InlineQueryHandler.collect_additional_context, hp]
  · intro hp
    simp [InlineQueryHandler.collect_additional_context, hp]

/-- Witness for C8: with a pattern, a prior `matches` value is overwritten
by the singleton list of the match object while `args` and `bot_data`
survive; without a pattern the context is untouched. -/
theorem C8_collect_context_witness :
    (InlineQueryHandler.collect_additional_context
        ⟨some (Re.char 't'), none⟩
        ⟨some [.bool true], some ["old"], 5⟩
        (.matched ⟨1, []⟩)).«matches» = some [.matched ⟨1, []⟩] ∧
    (InlineQueryHandler.collect_additional_context
        ⟨some (Re.char 't'), none⟩
        ⟨some [.bool true], some ["old"], 5⟩
        (.matched ⟨1, []⟩)).args = some ["old"] ∧
    (InlineQueryHandler.collect_additional_context
        ⟨some (Re.char 't'), none⟩
        ⟨some [.bool true], some ["old"], 5⟩
        (.matched ⟨1, []⟩)).bot_data = 5 ∧
    InlineQueryHandler.collect_additional_context ⟨none, none⟩
        ⟨some [.bool true], some ["old"], 5⟩ (.matched ⟨1, []⟩) =
      ⟨some [.bool true], some ["old"], 5⟩ := by
  have h := C8_collect_context ⟨some (Re.char 't'), none⟩
    ⟨some [.bool true], some ["old"], 5⟩ (.matched ⟨1, []⟩)
  have h2 := C8_collect_context ⟨none, none⟩
    ⟨some [.bool true], some ["old"], 5⟩ (.matched ⟨1, []⟩)
  exact ⟨(h.1 rfl).1, (h.1 rfl).2.1, (h.1 rfl).2.2, h2.2 rfl⟩


/-- Claim C5: `TypeHandler.check_update` with the strict flag matches
exactly the values whose runtime class is the target itself (a proper
subclass does not match); without it, exactly the values whose class is
the target or any subclass (`isinstance`); being a total function it
never throws. -/
theorem C5_type_handler (Class : Type) [DecidableEq Class]
    (mro : Class → List Class) (hself : ∀ c, c ∈ mro c)
    (h : TypeHandler Class) (u : PyVal Class) :
    (h.strict = true →
      (TypeHandler.check_update mro h u = true ↔ u.cls = h.type)) ∧
    (h.strict = false →
      (TypeHandler.check_update mro h u = true ↔
        (u.cls = h.type ∨ h.type ∈ mro u.cls))) ∧
    (h.strict = true → h.type ∈ mro u.cls → u.cls ≠ h.type →
      TypeHandler.check_update mro h u = false) := by
  refine ⟨?_, ?_, ?_⟩
  · intro hs
    simp [TypeHandler.check_update, hs]
  · intro hs
    simp only [TypeHandler.check_update, hs, Bool.not_eq_true,
      if_true, isinstance]
    constructor
    · intro hm
      simp only [List.contains, List.elem_eq_mem, decide_eq_true_iff] at hm
      exact Or.inr hm
    · rintro (heq | hmem)
      · simp only [List.contains, List.elem_eq_mem, decide_eq_true_iff]
        exact heq ▸ hself u.cls
      · simp only [List.contains, List.elem_eq_mem, decide_eq_true_iff]
        exact hmem
  · intro hs hmem hne
    simp [TypeHandler.check_update, hs, hne]

/-- Witness for C5: a strict handler for `foo` rejects a `fooSub`
instance, the non-strict one accepts it. -/
theorem C5_type_handler_witness :
    TypeHandler.check_update demoMro ⟨PyClassDemo.foo, true⟩
      ⟨PyClassDemo.fooSub, 0⟩ = false ∧
    TypeHandler.check_update demoMro ⟨PyClassDemo.foo, false⟩
      ⟨PyClassDemo.fooSub, 0⟩ = true := by
  have hself : ∀ c, c ∈ demoMro c := by
    intro c; cases c <;> simp [demoMro]
  have h1 := C5_type_handler PyClassDemo demoMro hself
    ⟨PyClassDemo.foo, true⟩ ⟨PyClassDemo.fooSub, 0⟩
  have h2 := C5_type_handler PyClassDemo demoMro hself
    ⟨PyClassDemo.foo, false⟩ ⟨PyClassDemo.fooSub, 0⟩
  exact ⟨h1.2.2 rfl (by simp [demoMro]) (by simp),
    (h2.2.1 rfl).mpr (Or.inr (by simp [demoMro]))⟩

theorem dispatchFind_eq_find? {υ σ : Type} (reg : Registry υ σ) (u : υ) :
    dispatchFind reg u =
      (reg.flatMap Prod.snd).find? (fun h => h.accepts u) := by
  induction reg with
  | nil => rfl
  | cons g rest ih =>
      obtain ⟨gid, hs⟩ := g
      simp only [dispatchFind, List.flatMap_cons, List.find?_append, ih]
      cases hs.find? (fun h => h.accepts u) <;> simp

/-- Claim C1 (dispatcher modelled from the spec): `dispatch(U)` invokes
at most one callback; the selected handler is the first match in group
order then registration order; sortedness makes that ascending group
order; if no handler matches, no callback runs; and once a group yields a
match the selected handler comes from the first such group, so later
groups are never consulted. -/
theorem C1_dispatch_first_match {υ σ : Type} (reg : Registry υ σ) (u : υ)
    (hsorted : List.Chain' (fun a b => a < b) (reg.map Prod.fst)) :
    (dispatchInvocations reg u).length ≤ 1 ∧
    dispatchFind reg u =
      (reg.flatMap Prod.snd).find? (fun h => h.accepts u) ∧
    ((∀ g ∈ reg, ∀ h ∈ g.2, h.accepts u = false) →
      dispatchInvocations reg u = []) ∧
    (∀ pre g post, reg = pre ++ g :: post →
      (∀ h ∈ pre.flatMap Prod.snd, h.accepts u = false) →
      (∃ h ∈ g.2, h.accepts u = true) →
      ∃ h ∈ g.2, dispatchFind reg u = some h) ∧
    List.Pairwise (fun a b => a.1 < b.1) reg := by
  refine ⟨?_, dispatchFind_eq_find? reg u, ?_, ?_, ?_⟩
  · unfold dispatchInvocations
    cases dispatchFind reg u <;> simp
  · intro hnone
    unfold dispatchInvocations
    rw [dispatchFind_eq_find? reg u]
    have : (reg.flatMap Prod.snd).find? (fun h => h.accepts u) = none := by
      rw [List.find?_eq_none]
      intro h hmem
      simp only [List.mem_flatMap] at hmem
      obtain ⟨g, hg, hh⟩ := hmem
      simp [hnone g hg h hh]
    rw [this]
  · intro pre g post hdec hpre hex
    rw [dispatchFind_eq_find? reg u, hdec]
    have hprenone : (pre.flatMap Prod.snd).find?
        (fun h => h.accepts u) = none := by
      rw [List.find?_eq_none]
      intro h hmem
      simp [hpre h hmem]
    have hgsome : (g.2.find? (fun h => h.accepts u)).isSome := by
      rw [List.find?_isSome]
      obtain ⟨h, hh, hacc⟩ := hex
      exact ⟨h, hh, hacc⟩
    obtain ⟨h, hfs⟩ := Option.isSome_iff_exists.mp hgsome
    refine ⟨h, List.mem_of_find?_eq_some hfs, ?_⟩
    simp only [List.flatMap_append, List.flatMap_cons, List.find?_append,
      hprenone, hfs]
    simp
  · exact List.pairwise_map.mp (List.chain'_iff_pairwise.mp hsorted)

/-- Witness for C1: two groups 0 < 1, both with an always-matching
handler — only group 0's callback fires. -/
theorem C1_dispatch_first_match_witness :
    dispatchInvocations
      ([((0 : Int), [⟨10, fun _ => true, fun n => n + 1⟩]),
        ((1 : Int), [⟨20, fun _ => true, fun n => n + 2⟩])] :
        Registry Nat Nat) 7 = [(10, 8)] ∧
    (dispatchInvocations
      ([((0 : Int), [⟨10, fun _ => true, fun n => n + 1⟩]),
        ((1 : Int), [⟨20, fun _ => true, fun n => n + 2⟩])] :
        Registry Nat Nat) 7).length ≤ 1 := by
  refine ⟨rfl, ?_⟩
  exact (C1_dispatch_first_match
    ([((0 : Int), [⟨10, fun _ => true, fun n => n + 1⟩]),
      ((1 : Int), [⟨20, fun _ => true, fun n => n + 2⟩])] :
      Registry Nat Nat) 7 (by simp)).1

end PTB
